import Mathlib

/-!
Verification of the WenBot repository (src/wenbot.py) against its
natural-language specification.

The development has two parts:

* `WenBot.Source` embeds, directly from `src/wenbot.py`, the pieces of the
  script that the claims refer to: the `executors` dictionary and the two
  `scheduler.add_job` calls in `main`, the keyword harvesting of
  `PSEOGenerator.harvest_long_tail` / `build_pages`, the try/except
  structure of `ViralVideoEngine.generate_script`, and the temp-file
  handling of `ViralVideoEngine.fetch_footage` / `process_video`.

* `WenBot.SpecModel` models the persistent job-scheduling and
  pipeline-orchestration engine.  That engine is described by the spec as
  the core of the system, but the script under `src/` delegates it wholly
  to the external APScheduler library, so its code is not part of the
  sources available here.  Each definition in this namespace is therefore
  modelled from the spec's own description (sections 3-5 and 7) and the
  claims about the engine are settled against this model.
-/

namespace WenBot

namespace Source

/-! ### Executor wiring in `main` (src/wenbot.py lines 306-338) -/

/-- One entry of the `executors` dict passed to `BackgroundScheduler`:
a named thread pool with a fixed worker count. -/
structure ExecutorDef where
  name : String
  maxWorkers : Nat
deriving DecidableEq, Repr

/-- The `executors` dict built in `main`: a 20-thread pool named
`"default"` (commented "For I/O bound tasks (Scraping)") and a 5-thread
pool named `"processpool"` (commented "For CPU bound tasks (Video
Rendering)"). -/
def executors : List ExecutorDef :=
  [⟨"default", 20⟩, ⟨"processpool", 5⟩]

/-- One `scheduler.add_job` call as written in `main`: the job id, the
trigger kind, the `hours` interval, the `executor` keyword argument
(`none` when the call omits it) and the `replace_existing` flag. -/
structure AddJobCall where
  id : String
  trigger : String
  hours : Nat
  executor : Option String
  replaceExisting : Bool
deriving DecidableEq, Repr

/-- The two `add_job` calls in `main`: the viral-video job (every 4 hours,
runs `video_engine.process_video`, the CPU-bound video-rendering pipeline)
and the SEO regeneration job (every 24 hours, runs
`pseo_engine.build_pages`, the I/O-bound page writer).  Neither call
passes an `executor` keyword argument. -/
def scheduledJobs : List AddJobCall :=
  [ { id := "viral_video_gen", trigger := "interval", hours := 4,
      executor := none, replaceExisting := true },
    { id := "seo_regen", trigger := "interval", hours := 24,
      executor := none, replaceExisting := true } ]

/-- The executor a job is dispatched to: APScheduler's documented rule is
that a job runs on the executor named by its `executor` option, and on the
executor aliased `"default"` when the option is omitted. -/
def effectiveExecutor (j : AddJobCall) : String :=
  j.executor.getD "default"

/-! ### `PSEOGenerator` keyword harvesting (src/wenbot.py lines 180-279) -/

/-- `self.base_keywords` set in `PSEOGenerator.__init__`. -/
def base_keywords : List String :=
  ["stake.us promo code", "stake.us review", "sweepstakes casino"]

/-- The `modifiers` list of `harvest_long_tail`. -/
def modifiers : List String :=
  ["2025", "reddit", "hack", "free sc", "no deposit", "login issue",
   "app download"]

/-- The `expanded` list of `harvest_long_tail`: for every base keyword
`b` and modifier `m`, the string `f"{b} {m}"`, in loop order. -/
def expandedKeywords : List String :=
  base_keywords.flatMap (fun b => modifiers.map (fun m => b ++ " " ++ m))

/-- The `deep_tail` list of `harvest_long_tail`: for every element `e` of
`expanded`, the strings `f"{e} today"` and `f"{e} working"`, in loop
order. -/
def deepTailKeywords : List String :=
  expandedKeywords.flatMap (fun e => [e ++ " today", e ++ " working"])

/-- `PSEOGenerator.harvest_long_tail`: returns `expanded + deep_tail`. -/
def harvest_long_tail : List String :=
  expandedKeywords ++ deepTailKeywords

/-- Python `str.lower` on one character, for the ASCII range the
keywords use. -/
def pyCharLower (c : Char) : Char :=
  if 'A' ≤ c ∧ c ≤ 'Z' then Char.ofNat (c.toNat + 32) else c

/-- The file-name sanitisation of `build_pages`:
`kw.replace(' ', '-').replace('.', '').lower() + ".html"`, rendered at
character level (both `replace` patterns are single characters, so
`replace(' ', '-')` maps each space to a dash and `replace('.', '')`
drops each dot). -/
def sanitizeFilename (kw : String) : String :=
  String.mk
    (((kw.data.map (fun c => if c = ' ' then '-' else c)).filter
        (fun c => c ≠ '.')).map pyCharLower) ++ ".html"

/-- The list of file paths written by `PSEOGenerator.build_pages`: one
file `f"{OUTPUT_DIR}/seo/{fname}"` per harvested keyword, with
`OUTPUT_DIR = "output"`. -/
def build_pages_paths : List String :=
  harvest_long_tail.map (fun kw => "output/seo/" ++ sanitizeFilename kw)

/-! ### `ViralVideoEngine.generate_script` (src/wenbot.py lines 87-109) -/

/-- A minimal JSON value, enough to model what `r.json()` can return for
the Hugging Face inference call. -/
inductive Json
  | arr (xs : List Json)
  | obj (fields : List (String × Json))
  | str (s : String)
  | num (n : Int)
  | null

/-- The Python exceptions the body of `generate_script` can raise. -/
inductive PyError
  | requestExn
  | jsonDecodeExn
  | typeErr
  | keyErr
  | valueErr
deriving DecidableEq, Repr

/-- The possible outcomes of `requests.post(...)` followed by `r.json()`:
the request raises, the body is not valid JSON, or a JSON value is
returned. -/
inductive PostOutcome
  | raised
  | badJson
  | decoded (body : Json)

/-- Python `v[key]` for a string `key`: a `KeyError` when an object lacks
the key, a `TypeError` when `v` is not an object (the Hugging Face API
returns a list, on which string indexing raises `TypeError`). -/
def jsonGetItem (v : Json) (key : String) : Except PyError Json :=
  match v with
  | .obj fields =>
    match fields.lookup key with
    | some x => .ok x
    | none => .error .keyErr
  | _ => .error .typeErr

/-- Using a JSON value as a Python `str` (to call `.split` on it): only a
JSON string succeeds; anything else raises (`AttributeError`, modelled
with `typeErr`). -/
def asPyStr : Json → Except PyError String
  | .str s => .ok s
  | _ => .error .typeErr

/-- Python `s.split(sep)`: raises `ValueError: empty separator` when
`sep` is the empty string — which is exactly what line 105 of the source
passes (`.split("")`). -/
def pySplit (s sep : String) : Except PyError (List String) :=
  if sep = "" then .error .valueErr else .ok (s.splitOn sep)

/-- The fixed fallback returned by the `except` branch of
`generate_script`. -/
def fallback_script : String :=
  "Risk everything to win everything. Link in bio."

/-- The `try` body of `generate_script`:
`r.json()['generated_text'].split("")[-1].strip().replace('"', '')`,
with every step that can raise made explicit. -/
def generate_script_body (o : PostOutcome) : Except PyError String :=
  match o with
  | .raised => .error .requestExn
  | .badJson => .error .jsonDecodeExn
  | .decoded body => do
    let v ← jsonGetItem body "generated_text"
    let s ← asPyStr v
    let parts ← pySplit s ""
    pure (((parts.getLast?).getD "").trim.replace "\"" "")

/-- `ViralVideoEngine.generate_script`: the `try` body, with the blanket
`except` returning the fixed fallback string. -/
def generate_script (o : PostOutcome) : String :=
  match generate_script_body o with
  | .ok t => t
  | .error _ => fallback_script

/-! ### Temp-footage handling (src/wenbot.py lines 59-85 and 111-170) -/

/-- The outcomes of `fetch_footage`: the request or download raised, the
HTTP status was not 200, the result had no videos, or a clip was
downloaded to `path`. -/
inductive FetchOutcome
  | raised
  | httpNotOk
  | noVideos
  | got (path : String)
deriving DecidableEq, Repr

/-- `ViralVideoEngine.fetch_footage`, viewed through its effect on the
set of files on disk: on success it writes the downloaded clip at `path`
and returns that path, otherwise it returns `None`. -/
def fetch_footage (files : Finset String) :
    FetchOutcome → Finset String × Option String
  | .raised => (files, none)
  | .httpNotOk => (files, none)
  | .noVideos => (files, none)
  | .got p => (insert p files, some p)

/-- The outcome of the editing/rendering `try` block of `process_video`:
either every step up to `write_videofile` succeeds, or some step
raises. -/
inductive EditOutcome
  | rendered
  | raised
deriving DecidableEq, Repr

/-- The tail of `process_video` after a successful fetch, viewed through
its effect on the set of files on disk.  On the success path the rendered
video is written to `outFile` and then `os.remove(video_path)` runs; on
the exception path the `except` branch runs
`if os.path.exists(video_path): os.remove(video_path)`. -/
def process_video_after_fetch (files : Finset String) (p outFile : String) :
    EditOutcome → Finset String
  | .rendered => (insert outFile files).erase p
  | .raised => if p ∈ files then files.erase p else files

/-- `ViralVideoEngine.process_video`, viewed through its effect on the
set of files on disk: it calls `fetch_footage`, returns immediately when
no path came back (`if not video_path: return`), and otherwise runs the
editing pipeline with its cleanup. -/
def process_video (files : Finset String) (fo : FetchOutcome)
    (outFile : String) (eo : EditOutcome) : Finset String :=
  match fetch_footage files fo with
  | (files2, none) => files2
  | (files2, some p) => process_video_after_fetch files2 p outFile eo

end Source


namespace SpecModel

/-- Modelled from the spec: the resource category of a job's pool (§3,
`poolCategory: enum{IO, CPU}`).  The scheduling engine itself is missing
from the sources (the script delegates it to APScheduler), so this and
the following definitions follow the spec's description. -/
inductive PoolCategory
  | io
  | cpu
deriving DecidableEq, Repr

/-- Modelled from the spec: `JobDefinition` (§3) — configuration of one
recurring pipeline invocation. -/
structure JobDefinition where
  id : String
  pipelineName : String
  intervalSeconds : Nat
  poolCategory : PoolCategory
  enabled : Bool
deriving DecidableEq, Repr

/-- Modelled from the spec: the `lastStatus` enumeration of
`JobRunState` (§3). -/
inductive LastStatus
  | succeeded
  | failed
  | never
deriving DecidableEq, Repr

/-- Modelled from the spec: `JobRunState` (§3) — the persisted, mutable
record of a job's execution history.  Timestamps are absolute epoch
values (§6), modelled as naturals. -/
structure JobRunState where
  jobId : String
  lastRunAt : Option Nat
  lastStatus : LastStatus
  nextRunAt : Nat
  consecutiveFailures : Nat
  running : Bool
deriving DecidableEq, Repr

/-- Modelled from the spec: `PipelineResult` (§3). -/
structure PipelineResult where
  success : Bool
  artifactRef : Option String
  error : Option String
deriving DecidableEq, Repr

/-- Modelled from the spec: an execution fault raised by a pipeline,
delivered to the completion callback in place of a result (§4.2). -/
structure Fault where
  message : String
deriving DecidableEq, Repr

/-- Modelled from the spec: `WorkerPool` (§4.2) — a bounded executor with
a fixed capacity and no queue; `inFlight` counts the executions it
currently runs. -/
structure WorkerPool where
  capacity : Nat
  inFlight : Nat
deriving DecidableEq, Repr

/-- Modelled from the spec: the result of `WorkerPool.submit` (§4.2),
`Accepted | Busy`. -/
inductive SubmitResult
  | accepted
  | busy
deriving DecidableEq, Repr

/-- Modelled from the spec: `submit(task)` (§4.2) — accepts the task and
occupies a slot while capacity remains, and otherwise returns `Busy`
immediately, leaving the pool unchanged (no queueing). -/
def WorkerPool.submit (p : WorkerPool) : SubmitResult × WorkerPool :=
  if p.inFlight < p.capacity then
    (.accepted, { p with inFlight := p.inFlight + 1 })
  else
    (.busy, p)

/-- Modelled from the spec: completion of a submitted task frees its
pool slot (§4.2). -/
def WorkerPool.finish (p : WorkerPool) : WorkerPool :=
  { p with inFlight := p.inFlight - 1 }

/-- Modelled from the spec: the two pool instances, one per resource
category (§2, §4.2). -/
structure Pools where
  ioPool : WorkerPool
  cpuPool : WorkerPool
deriving DecidableEq, Repr

/-- The pool serving a resource category. -/
def Pools.category (ps : Pools) : PoolCategory → WorkerPool
  | .io => ps.ioPool
  | .cpu => ps.cpuPool

/-- Replace the pool serving a resource category. -/
def Pools.withCategory (ps : Pools) : PoolCategory → WorkerPool → Pools
  | .io, p => { ps with ioPool := p }
  | .cpu, p => { ps with cpuPool := p }

/-- One scheduled job: its immutable definition together with its
current run state. -/
structure Entry where
  d : JobDefinition
  s : JobRunState
deriving DecidableEq, Repr

/-- Modelled from the spec: the Orchestrator's dueness test (§4.3) — a
job fires when `now ≥ nextRunAt` and `enabled` and `running = false`. -/
def isDue (now : Nat) (e : Entry) : Bool :=
  decide (e.s.nextRunAt ≤ now) && e.d.enabled && !e.s.running

/-- Marking a job dispatched: `running := true` is set in memory before
dispatch (§4.3). -/
def dispatchEntry (e : Entry) : Entry :=
  { e with s := { e.s with running := true } }

/-- Modelled from the spec: one tick's scan over the job list (§4.3).
Each due job is submitted to the pool matching its category; on
`Accepted` the job is marked running and its id joins the in-flight
multiset, on `Busy` the job is skipped for this tick with its state —
`nextRunAt` included — unchanged.  Returns the updated pools, in-flight
ids and entries. -/
def tickList (now : Nat) :
    Pools → List String → List Entry → Pools × List String × List Entry
  | ps, fl, [] => (ps, fl, [])
  | ps, fl, e :: es =>
    if isDue now e then
      match (ps.category e.d.poolCategory).submit with
      | (.accepted, p2) =>
        let r := tickList now (ps.withCategory e.d.poolCategory p2)
          (e.d.id :: fl) es
        (r.1, r.2.1, dispatchEntry e :: r.2.2)
      | (.busy, _) =>
        let r := tickList now ps fl es
        (r.1, r.2.1, e :: r.2.2)
    else
      let r := tickList now ps fl es
      (r.1, r.2.1, e :: r.2.2)

/-- The whole scheduler state: the job table, the two pools, and the
multiset of job ids with an execution currently in flight. -/
structure SysState where
  entries : List Entry
  pools : Pools
  inFlight : List String
deriving DecidableEq, Repr

/-- Modelled from the spec: one tick of the Orchestrator loop (§4.3). -/
def tick (now : Nat) (st : SysState) : SysState :=
  let r := tickList now st.pools st.inFlight st.entries
  { entries := r.2.2, pools := r.1, inFlight := r.2.1 }

/-- Modelled from the spec: how a completion delivery is recorded (§4.3,
§7) — a pipeline raising a fault or returning `success = false` counts
as a failed run. -/
def recordOutcome : Except Fault PipelineResult → Bool
  | .ok r => r.success
  | .error _ => false

/-- Modelled from the spec: the `Running → Idle` transition applied to
one job's run state on completion at time `t` (§4.3): `nextRunAt`
becomes `t + intervalSeconds` (fixed delay), `lastRunAt` and
`lastStatus` are updated, `consecutiveFailures` resets on success and
increments on failure, and `running` clears. -/
def completeJob (t : Nat) (d : JobDefinition) (ok : Bool)
    (s : JobRunState) : JobRunState :=
  { s with
    lastRunAt := some t
    lastStatus := if ok then .succeeded else .failed
    nextRunAt := t + d.intervalSeconds
    consecutiveFailures := if ok then 0 else s.consecutiveFailures + 1
    running := false }

/-- Whether an entry is the in-flight run of job `j`. -/
def isRunningId (j : String) (e : Entry) : Bool :=
  e.d.id == j && e.s.running

/-- Modelled from the spec: the completion callback for job `j` at time
`t` (§4.3, §5).  It updates and persists the run state of the one
in-flight entry with that id, frees the pool slot and retires the id
from the in-flight multiset; a late callback for a job that is not
running is a no-op. -/
def complete (j : String) (t : Nat) (ok : Bool) (st : SysState) :
    SysState :=
  match st.entries.find? (isRunningId j) with
  | none => st
  | some e0 =>
    { entries := st.entries.map (fun e =>
        if isRunningId j e then { e with s := completeJob t e.d ok e.s }
        else e)
      pools := st.pools.withCategory e0.d.poolCategory
        ((st.pools.category e0.d.poolCategory).finish)
      inFlight := st.inFlight.erase j }

/-- Modelled from the spec: the events that drive the engine — ticks of
the loop and asynchronous completion callbacks carrying a
`PipelineResult` or an execution fault (§4.2, §5). -/
inductive Event
  | tickEv (now : Nat)
  | completeEv (jobId : String) (t : Nat)
      (result : Except Fault PipelineResult)

/-- Applying one event to the scheduler state. -/
def applyEvent : Event → SysState → SysState
  | .tickEv now, st => tick now st
  | .completeEv j t r, st => complete j t (recordOutcome r) st

/-- Modelled from the spec: the run state created the first time a
definition is scheduled (§3, §8): no previous run, first firing one
interval after start. -/
def freshState (now : Nat) (d : JobDefinition) : JobRunState :=
  { jobId := d.id, lastRunAt := none, lastStatus := .never,
    nextRunAt := now + d.intervalSeconds, consecutiveFailures := 0,
    running := false }

/-- Modelled from the spec: merging one definition with the persisted
store at startup (§2, §5).  A persisted record is used as the basis of
the schedule — its `nextRunAt` is kept, an overdue value simply making
the job due on the first tick (catch-up) — with only the in-memory
`running` flag cleared, since no execution is in flight at boot.  A job
with no persisted record gets a fresh state. -/
def loadState (store : List JobRunState) (now : Nat)
    (d : JobDefinition) : JobRunState :=
  match store.find? (fun r => r.jobId == d.id) with
  | some r => { r with running := false }
  | none => freshState now d

/-- The engine's startup configuration: the configured definitions, the
persisted store contents, the boot time and the two pool capacities. -/
structure Config where
  defs : List JobDefinition
  store : List JobRunState
  startTime : Nat
  ioCapacity : Nat
  cpuCapacity : Nat

/-- Modelled from the spec: the state the Orchestrator boots into (§2):
persisted run state merged with the configured definitions, empty pools,
nothing in flight. -/
def Config.startup (c : Config) : SysState :=
  { entries := c.defs.map (fun d => ⟨d, loadState c.store c.startTime d⟩)
    pools := { ioPool := ⟨c.ioCapacity, 0⟩, cpuPool := ⟨c.cpuCapacity, 0⟩ }
    inFlight := [] }

/-- The states the engine can reach from startup under any interleaving
of ticks and completion callbacks. -/
inductive Reachable (c : Config) : SysState → Prop
  | init : Reachable c c.startup
  | step (ev : Event) {st : SysState} :
      Reachable c st → Reachable c (applyEvent ev st)

/-- The job ids of a job table, in order. -/
def jobIds (es : List Entry) : List String :=
  es.map (fun e => e.d.id)

/-- How many entries of the table are the in-flight run of job `j`. -/
def countRunning (j : String) (es : List Entry) : Nat :=
  (es.filter (isRunningId j)).length

/-- The engine's no-overlap invariant, strengthened for induction: job
ids are unique, and the in-flight multiset holds each id exactly as often
as the table marks it running. -/
def Inv (st : SysState) : Prop :=
  (jobIds st.entries).Nodup ∧
  ∀ j, st.inFlight.count j = countRunning j st.entries

/-- The fixed-delay bound on one entry: whenever a last run is recorded,
the next run is scheduled no earlier than one interval after it. -/
def EntryOk (e : Entry) : Prop :=
  ∀ u, e.s.lastRunAt = some u →
    u + e.d.intervalSeconds ≤ e.s.nextRunAt

/-- Whether the persisted record for definition `d`, if any, satisfies
the fixed-delay bound. -/
def storeEntryOk (d : JobDefinition) (store : List JobRunState) : Bool :=
  match store.find? (fun r => r.jobId == d.id) with
  | some r =>
    match r.lastRunAt with
    | some u => decide (u + d.intervalSeconds ≤ r.nextRunAt)
    | none => true
  | none => true

/-- A store whose persisted records all satisfy the fixed-delay bound
for their configured definitions — what a conforming previous run leaves
behind (§3). -/
def WfStore (c : Config) : Prop :=
  ∀ d ∈ c.defs, storeEntryOk d c.store = true

/-! ### Concrete data used by the witnesses -/

/-- A CPU-bound job definition mirroring the source's `viral_video_gen`
job (4-hour interval, in seconds). -/
def sampleDef : JobDefinition :=
  { id := "viral_video_gen", pipelineName := "process_video",
    intervalSeconds := 14400, poolCategory := .cpu, enabled := true }

/-- An I/O-bound job definition mirroring the source's `seo_regen` job
(24-hour interval, in seconds). -/
def sampleDefB : JobDefinition :=
  { id := "seo_regen", pipelineName := "build_pages",
    intervalSeconds := 86400, poolCategory := .io, enabled := true }

/-- A persisted run record for `viral_video_gen`, as a previous
conforming run would leave it. -/
def sampleStored : JobRunState :=
  { jobId := "viral_video_gen", lastRunAt := some 100,
    lastStatus := .succeeded, nextRunAt := 14500,
    consecutiveFailures := 0, running := false }

/-- A startup configuration with both jobs and one persisted record. -/
def sampleConfig : Config :=
  { defs := [sampleDef, sampleDefB], store := [sampleStored],
    startTime := 14000, ioCapacity := 20, cpuCapacity := 5 }

/-- A pool pair whose CPU pool is saturated. -/
def busyPools : Pools :=
  { ioPool := ⟨20, 3⟩, cpuPool := ⟨5, 5⟩ }

/-- A due, idle entry for the CPU-bound job. -/
def dueEntry : Entry :=
  ⟨sampleDef,
    { jobId := "viral_video_gen", lastRunAt := some 0,
      lastStatus := .succeeded, nextRunAt := 10,
      consecutiveFailures := 0, running := false }⟩

/-- An entry whose job is currently running. -/
def runningEntryA : Entry :=
  ⟨sampleDef,
    { jobId := "viral_video_gen", lastRunAt := none,
      lastStatus := .never, nextRunAt := 14400,
      consecutiveFailures := 0, running := true }⟩

/-- An idle entry for the other job. -/
def idleEntryB : Entry :=
  ⟨sampleDefB, freshState 0 sampleDefB⟩

/-- A state with one running job and one idle job. -/
def twoJobState : SysState :=
  { entries := [runningEntryA, idleEntryB],
    pools := { ioPool := ⟨20, 0⟩, cpuPool := ⟨5, 1⟩ },
    inFlight := ["viral_video_gen"] }

/-- A sample execution fault. -/
def sampleFault : Fault :=
  ⟨"pipeline raised"⟩

/-! ### Basic lemmas about the model -/

theorem submit_accepted {p : WorkerPool} (h : p.inFlight < p.capacity) :
    p.submit = (.accepted, { p with inFlight := p.inFlight + 1 }) := by
  simp [WorkerPool.submit, h]

theorem submit_busy {p : WorkerPool} (h : ¬ p.inFlight < p.capacity) :
    p.submit = (.busy, p) := by
  simp [WorkerPool.submit, h]

theorem isDue_running_false {now : Nat} {e : Entry}
    (h : isDue now e = true) : e.s.running = false := by
  simp only [isDue, Bool.and_eq_true, Bool.not_eq_true'] at h
  exact h.2

theorem isRunningId_false_of_not_running {j : String} {e : Entry}
    (h : e.s.running = false) : isRunningId j e = false := by
  simp [isRunningId, h]

theorem isRunningId_dispatch (j : String) (e : Entry) :
    isRunningId j (dispatchEntry e) = (e.d.id == j) := by
  simp [isRunningId, dispatchEntry]

theorem countRunning_nil (j : String) : countRunning j [] = 0 := rfl

theorem countRunning_cons (j : String) (e : Entry) (es : List Entry) :
    countRunning j (e :: es) =
      (if isRunningId j e then 1 else 0) + countRunning j es := by
  by_cases h : isRunningId j e
  · simp [countRunning, List.filter_cons, h, Nat.add_comm]
  · simp [countRunning, List.filter_cons, h]

theorem tickList_cons_notDue {now : Nat} {e : Entry}
    (ps : Pools) (fl : List String) (es : List Entry)
    (h : isDue now e = false) :
    tickList now ps fl (e :: es) =
      ((tickList now ps fl es).1, (tickList now ps fl es).2.1,
        e :: (tickList now ps fl es).2.2) := by
  simp [tickList, h]

theorem tickList_cons_accepted {now : Nat} {e : Entry}
    (ps : Pools) (fl : List String) (es : List Entry)
    (h : isDue now e = true)
    (hc : (ps.category e.d.poolCategory).inFlight <
      (ps.category e.d.poolCategory).capacity) :
    tickList now ps fl (e :: es) =
      ((tickList now
          (ps.withCategory e.d.poolCategory
            { ps.category e.d.poolCategory with
              inFlight := (ps.category e.d.poolCategory).inFlight + 1 })
          (e.d.id :: fl) es).1,
        (tickList now
          (ps.withCategory e.d.poolCategory
            { ps.category e.d.poolCategory with
              inFlight := (ps.category e.d.poolCategory).inFlight + 1 })
          (e.d.id :: fl) es).2.1,
        dispatchEntry e ::
          (tickList now
            (ps.withCategory e.d.poolCategory
              { ps.category e.d.poolCategory with
                inFlight := (ps.category e.d.poolCategory).inFlight + 1 })
            (e.d.id :: fl) es).2.2) := by
  rw [tickList, if_pos h, submit_accepted hc]

theorem tickList_cons_busy {now : Nat} {e : Entry}
    (ps : Pools) (fl : List String) (es : List Entry)
    (h : isDue now e = true)
    (hc : ¬ (ps.category e.d.poolCategory).inFlight <
      (ps.category e.d.poolCategory).capacity) :
    tickList now ps fl (e :: es) =
      ((tickList now ps fl es).1, (tickList now ps fl es).2.1,
        e :: (tickList now ps fl es).2.2) := by
  rw [tickList, if_pos h, submit_busy hc]

theorem tickList_jobIds (now : Nat) :
    ∀ (es : List Entry) (ps : Pools) (fl : List String),
      jobIds (tickList now ps fl es).2.2 = jobIds es := by
  intro es
  induction es with
  | nil => intro ps fl; rfl
  | cons e es ih =>
    intro ps fl
    by_cases h : isDue now e
    · by_cases hc : (ps.category e.d.poolCategory).inFlight <
        (ps.category e.d.poolCategory).capacity
      · rw [tickList_cons_accepted ps fl es h hc]
        simp [jobIds, dispatchEntry] at ih ⊢
        exact ih _ _
      · rw [tickList_cons_busy ps fl es h hc]
        simp [jobIds] at ih ⊢
        exact ih _ _
    · rw [tickList_cons_notDue ps fl es (Bool.of_not_eq_true h)]
      simp [jobIds] at ih ⊢
      exact ih _ _

theorem tickList_count (now : Nat) (j : String) :
    ∀ (es : List Entry) (ps : Pools) (fl : List String),
      (tickList now ps fl es).2.1.count j + countRunning j es
        = fl.count j + countRunning j (tickList now ps fl es).2.2 := by
  intro es
  induction es with
  | nil => intro ps fl; rfl
  | cons e es ih =>
    intro ps fl
    by_cases h : isDue now e
    · by_cases hc : (ps.category e.d.poolCategory).inFlight <
        (ps.category e.d.poolCategory).capacity
      · rw [tickList_cons_accepted ps fl es h hc]
        dsimp only
        have hrun : isRunningId j e = false :=
          isRunningId_false_of_not_running (isDue_running_false h)
        rw [countRunning_cons, countRunning_cons, hrun,
          isRunningId_dispatch]
        have hrec := ih
          (ps.withCategory e.d.poolCategory
            { ps.category e.d.poolCategory with
              inFlight := (ps.category e.d.poolCategory).inFlight + 1 })
          (e.d.id :: fl)
        rw [List.count_cons] at hrec
        by_cases hid : e.d.id = j
        · simp only [hid, beq_self_eq_true, if_true, Bool.false_eq_true,
            if_false] at hrec ⊢
          omega
        · have h2 : (e.d.id == j) = false := by
            simp [hid]
          rw [h2] at hrec
          rw [h2]
          simp only [Bool.false_eq_true, if_false] at hrec ⊢
          omega
      · rw [tickList_cons_busy ps fl es h hc]
        dsimp only
        rw [countRunning_cons, countRunning_cons]
        have hrec := ih ps fl
        omega
    · rw [tickList_cons_notDue ps fl es (Bool.of_not_eq_true h)]
      dsimp only
      rw [countRunning_cons, countRunning_cons]
      have hrec := ih ps fl
      omega

theorem countRunning_eq_zero_of_not_mem {j : String} {es : List Entry}
    (h : j ∉ jobIds es) : countRunning j es = 0 := by
  induction es with
  | nil => rfl
  | cons e es ih =>
    simp only [jobIds, List.map_cons, List.mem_cons, not_or] at h
    rw [countRunning_cons]
    have h1 : isRunningId j e = false := by
      simp only [isRunningId, Bool.and_eq_false_iff]
      left
      simp only [beq_eq_false_iff_ne, ne_eq]
      exact fun hx => h.1 hx.symm
    rw [h1]
    simp only [Bool.false_eq_true, if_false, Nat.zero_add]
    exact ih fun hm => h.2 hm

theorem countRunning_le_one {j : String} {es : List Entry}
    (h : (jobIds es).Nodup) : countRunning j es ≤ 1 := by
  induction es with
  | nil => exact Nat.zero_le 1
  | cons e es ih =>
    simp only [jobIds, List.map_cons, List.nodup_cons] at h
    rw [countRunning_cons]
    by_cases hr : isRunningId j e
    · have hid : e.d.id = j := by
        have := hr
        simp only [isRunningId, Bool.and_eq_true, beq_iff_eq] at this
        exact this.1
      have hz : countRunning j es = 0 := by
        apply countRunning_eq_zero_of_not_mem
        rw [← hid]
        exact h.1
      rw [hr, hz]
      simp
    · rw [if_neg (by simp [hr])]
      simpa using ih h.2

theorem countRunning_map_eq {j : String} (f : Entry → Entry)
    (h : ∀ e, isRunningId j (f e) = isRunningId j e) :
    ∀ es : List Entry, countRunning j (es.map f) = countRunning j es := by
  intro es
  induction es with
  | nil => rfl
  | cons e es ih =>
    rw [List.map_cons, countRunning_cons, countRunning_cons, h e, ih]

theorem countRunning_map_zero {j : String} (f : Entry → Entry)
    (h : ∀ e, isRunningId j (f e) = false) :
    ∀ es : List Entry, countRunning j (es.map f) = 0 := by
  intro es
  induction es with
  | nil => rfl
  | cons e es ih =>
    rw [List.map_cons, countRunning_cons, h e, ih]
    simp

theorem jobIds_map_eq (f : Entry → Entry)
    (h : ∀ e, (f e).d = e.d) (es : List Entry) :
    jobIds (es.map f) = jobIds es := by
  induction es with
  | nil => rfl
  | cons e es ih =>
    simp only [jobIds, List.map_cons, List.map_map] at ih ⊢
    rw [h e]
    exact congrArg _ ih

theorem entriesD_map_eq (f : Entry → Entry)
    (h : ∀ e, (f e).d = e.d) :
    ∀ es : List Entry, (es.map f).map Entry.d = es.map Entry.d := by
  intro es
  induction es with
  | nil => rfl
  | cons e es ih =>
    simp only [List.map_cons, h e, ih]

theorem countRunning_zero_of_none_running {j : String} {es : List Entry}
    (h : ∀ e ∈ es, e.s.running = false) : countRunning j es = 0 := by
  induction es with
  | nil => rfl
  | cons e es ih =>
    rw [countRunning_cons,
      isRunningId_false_of_not_running (h e (List.mem_cons_self e es))]
    simp only [Bool.false_eq_true, if_false, Nat.zero_add]
    exact ih fun e2 hm => h e2 (List.mem_cons_of_mem e hm)

theorem loadState_running (store : List JobRunState) (now : Nat)
    (d : JobDefinition) : (loadState store now d).running = false := by
  unfold loadState
  cases store.find? (fun r => r.jobId == d.id) <;> rfl

theorem startup_jobIds (c : Config) :
    jobIds c.startup.entries = c.defs.map JobDefinition.id := by
  simp [Config.startup, jobIds, List.map_map]

theorem inv_startup {c : Config}
    (hN : (c.defs.map JobDefinition.id).Nodup) : Inv c.startup := by
  constructor
  · rw [startup_jobIds]
    exact hN
  · intro j
    rw [countRunning_zero_of_none_running]
    · rfl
    · intro e hm
      simp only [Config.startup, List.mem_map] at hm
      obtain ⟨d, _, hd⟩ := hm
      rw [← hd]
      exact loadState_running c.store c.startTime d

theorem inv_tick (now : Nat) {st : SysState} (h : Inv st) :
    Inv (tick now st) := by
  obtain ⟨h1, h2⟩ := h
  constructor
  · show (jobIds (tick now st).entries).Nodup
    dsimp [tick]
    rw [tickList_jobIds]
    exact h1
  · intro j
    have hce := tickList_count now j st.entries st.pools st.inFlight
    have hj := h2 j
    dsimp [tick]
    omega

theorem inv_complete (j : String) (t : Nat) (ok : Bool) {st : SysState}
    (h : Inv st) : Inv (complete j t ok st) := by
  obtain ⟨h1, h2⟩ := h
  unfold complete
  cases hf : st.entries.find? (isRunningId j) with
  | none => exact ⟨h1, h2⟩
  | some e0 =>
    have hd : ∀ e : Entry,
        ((fun e => if isRunningId j e
            then { e with s := completeJob t e.d ok e.s } else e) e).d
          = e.d := by
      intro e
      by_cases hr : isRunningId j e <;> simp [hr]
    constructor
    · dsimp only
      rw [jobIds_map_eq _ hd]
      exact h1
    · intro j2
      dsimp only
      by_cases hj : j2 = j
      · subst hj
        have hcnt : st.inFlight.count j2 = 1 := by
          have hub := countRunning_le_one (j := j2) h1
          have hmem := List.mem_of_find?_eq_some hf
          have hpred := List.find?_some hf
          have hfil : e0 ∈ st.entries.filter (isRunningId j2) :=
            List.mem_filter.mpr ⟨hmem, hpred⟩
          have hlb : 0 < countRunning j2 st.entries :=
            List.length_pos_of_mem hfil
          have := h2 j2
          omega
        rw [List.count_erase_self, hcnt,
          countRunning_map_zero _ ?_ st.entries]
        · intro e
          by_cases hr : isRunningId j2 e
          · simp only [hr, if_true]
            simp [isRunningId, completeJob]
          · simp only [hr, Bool.false_eq_true, if_false]
      · rw [List.count_erase_of_ne hj,
          countRunning_map_eq _ ?_ st.entries]
        · exact h2 j2
        · intro e
          by_cases hr : isRunningId j e
          · have hid : e.d.id = j := by
              have := hr
              simp only [isRunningId, Bool.and_eq_true, beq_iff_eq]
                at this
              exact this.1
            have hlhs : (e.d.id == j2) = false := by
              rw [hid]
              simp only [beq_eq_false_iff_ne, ne_eq]
              exact fun hx => hj hx.symm
            simp only [hr, if_true]
            simp [isRunningId, completeJob, hlhs]
          · simp only [hr, Bool.false_eq_true, if_false]

theorem inv_applyEvent (ev : Event) {st : SysState} (h : Inv st) :
    Inv (applyEvent ev st) := by
  cases ev with
  | tickEv now => exact inv_tick now h
  | completeEv j t r => exact inv_complete j t (recordOutcome r) h

theorem reachable_inv {c : Config} {st : SysState}
    (hN : (c.defs.map JobDefinition.id).Nodup)
    (h : Reachable c st) : Inv st := by
  induction h with
  | init => exact inv_startup hN
  | step ev hr ih => exact inv_applyEvent ev ih

theorem tickList_mem (now : Nat) :
    ∀ (es : List Entry) (ps : Pools) (fl : List String),
      ∀ e2 ∈ (tickList now ps fl es).2.2,
        ∃ e ∈ es, e2 = e ∨ e2 = dispatchEntry e := by
  intro es
  induction es with
  | nil =>
    intro ps fl e2 hm
    exact absurd hm (List.not_mem_nil e2)
  | cons e es ih =>
    intro ps fl e2 hm
    by_cases h : isDue now e
    · by_cases hc : (ps.category e.d.poolCategory).inFlight <
        (ps.category e.d.poolCategory).capacity
      · rw [tickList_cons_accepted ps fl es h hc] at hm
        dsimp only at hm
        rcases List.mem_cons.mp hm with h2 | h2
        · exact ⟨e, List.mem_cons_self e es, Or.inr h2⟩
        · obtain ⟨e3, hm3, h3⟩ := ih _ _ e2 h2
          exact ⟨e3, List.mem_cons_of_mem e hm3, h3⟩
      · rw [tickList_cons_busy ps fl es h hc] at hm
        dsimp only at hm
        rcases List.mem_cons.mp hm with h2 | h2
        · exact ⟨e, List.mem_cons_self e es, Or.inl h2⟩
        · obtain ⟨e3, hm3, h3⟩ := ih ps fl e2 h2
          exact ⟨e3, List.mem_cons_of_mem e hm3, h3⟩
    · rw [tickList_cons_notDue ps fl es (Bool.of_not_eq_true h)] at hm
      dsimp only at hm
      rcases List.mem_cons.mp hm with h2 | h2
      · exact ⟨e, List.mem_cons_self e es, Or.inl h2⟩
      · obtain ⟨e3, hm3, h3⟩ := ih ps fl e2 h2
        exact ⟨e3, List.mem_cons_of_mem e hm3, h3⟩

theorem entryOk_dispatch {e : Entry} (h : EntryOk e) :
    EntryOk (dispatchEntry e) := by
  intro u hu
  exact h u hu

theorem entryOk_completeJob (t : Nat) (ok : Bool) (e : Entry) :
    EntryOk { e with s := completeJob t e.d ok e.s } := by
  intro u hu
  simp only [completeJob] at hu ⊢
  cases hu
  exact Nat.le_refl _

theorem entryOk_loadState {c : Config} (hW : WfStore c)
    {d : JobDefinition} (hd : d ∈ c.defs) :
    EntryOk ⟨d, loadState c.store c.startTime d⟩ := by
  intro u hu
  have hok := hW d hd
  cases hf : c.store.find? (fun r => r.jobId == d.id) with
  | none =>
    simp [loadState, hf, freshState] at hu
  | some r =>
    simp only [loadState, hf] at hu
    simp only [storeEntryOk, hf, hu, decide_eq_true_eq] at hok
    show u + d.intervalSeconds ≤ (loadState c.store c.startTime d).nextRunAt
    simp only [loadState, hf]
    exact hok

theorem entryOk_tick (now : Nat) {st : SysState}
    (h : ∀ e ∈ st.entries, EntryOk e) :
    ∀ e ∈ (tick now st).entries, EntryOk e := by
  intro e2 hm
  dsimp [tick] at hm
  obtain ⟨e, hme, he⟩ := tickList_mem now st.entries st.pools st.inFlight
    e2 hm
  rcases he with he | he
  · rw [he]
    exact h e hme
  · rw [he]
    exact entryOk_dispatch (h e hme)

theorem entryOk_complete (j : String) (t : Nat) (ok : Bool)
    {st : SysState} (h : ∀ e ∈ st.entries, EntryOk e) :
    ∀ e ∈ (complete j t ok st).entries, EntryOk e := by
  intro e2 hm
  unfold complete at hm
  cases hf : st.entries.find? (isRunningId j) with
  | none =>
    rw [hf] at hm
    exact h e2 hm
  | some e0 =>
    rw [hf] at hm
    dsimp only at hm
    obtain ⟨e, hme, he⟩ := List.mem_map.mp hm
    by_cases hr : isRunningId j e
    · rw [if_pos hr] at he
      rw [← he]
      exact entryOk_completeJob t ok e
    · rw [if_neg (by simp [hr])] at he
      rw [← he]
      exact h e hme

theorem entryOk_startup {c : Config} (hW : WfStore c) :
    ∀ e ∈ c.startup.entries, EntryOk e := by
  intro e hm
  simp only [Config.startup, List.mem_map] at hm
  obtain ⟨d, hd, he⟩ := hm
  rw [← he]
  exact entryOk_loadState hW hd

theorem reachable_entryOk {c : Config} {st : SysState} (hW : WfStore c)
    (h : Reachable c st) : ∀ e ∈ st.entries, EntryOk e := by
  induction h with
  | init => exact entryOk_startup hW
  | step ev hr ih =>
    cases ev with
    | tickEv now => exact entryOk_tick now ih
    | completeEv j t r => exact entryOk_complete j t (recordOutcome r) ih

/-! ### The claims about the scheduling engine -/

/-- C1: in every state the engine can reach from a validated startup
configuration (distinct job ids, as startup validation guarantees — a
duplicate id is a FatalError), at most one execution of any job id is in
flight: a new run of a job is never dispatched while a previous run of
the same job is still running. -/
theorem c1_no_overlap (c : Config) (st : SysState)
    (hN : (c.defs.map JobDefinition.id).Nodup)
    (hR : Reachable c st) (j : String) :
    st.inFlight.count j ≤ 1 := by
  have hI := reachable_inv hN hR
  rw [hI.2 j]
  exact countRunning_le_one hI.1

/-- Witness for C1 at a concrete reachable state: after one tick of the
sample configuration (which dispatches the due video job), its id is in
flight at most once. -/
theorem c1_no_overlap_witness :
    (applyEvent (.tickEv 20000) sampleConfig.startup).inFlight.count
      "viral_video_gen" ≤ 1 :=
  c1_no_overlap sampleConfig _ (by decide)
    (Reachable.step (.tickEv 20000) Reachable.init) "viral_video_gen"

/-- C2: completion of a run at time `t` schedules the next run at
`t + intervalSeconds` (fixed delay, not a wall-clock grid), and
consequently in every reachable state of a configuration whose persisted
records respect the bound, `nextRunAt ≥ lastRunAt + intervalSeconds`
holds whenever `lastRunAt` is set. -/
theorem c2_fixed_delay :
    (∀ (t : Nat) (d : JobDefinition) (ok : Bool) (s : JobRunState),
      (completeJob t d ok s).nextRunAt = t + d.intervalSeconds) ∧
    (∀ (c : Config) (st : SysState), WfStore c → Reachable c st →
      ∀ e ∈ st.entries, ∀ u, e.s.lastRunAt = some u →
        u + e.d.intervalSeconds ≤ e.s.nextRunAt) := by
  constructor
  · intro t d ok s
    rfl
  · intro c st hW hR e hm u hu
    exact reachable_entryOk hW hR e hm u hu

/-- Witness for C2 at concrete inputs: a completion at time 7 schedules
the next run one interval later, and the loaded sample entry satisfies
the fixed-delay bound at startup. -/
theorem c2_fixed_delay_witness :
    (completeJob 7 sampleDef true sampleStored).nextRunAt
        = 7 + sampleDef.intervalSeconds ∧
    100 + (⟨sampleDef, loadState sampleConfig.store
        sampleConfig.startTime sampleDef⟩ : Entry).d.intervalSeconds ≤
      (⟨sampleDef, loadState sampleConfig.store
        sampleConfig.startTime sampleDef⟩ : Entry).s.nextRunAt :=
  ⟨c2_fixed_delay.1 7 sampleDef true sampleStored,
   c2_fixed_delay.2 sampleConfig sampleConfig.startup
     (by unfold WfStore; decide)
     Reachable.init
     ⟨sampleDef, loadState sampleConfig.store sampleConfig.startTime
       sampleDef⟩ (by decide) 100 (by decide)⟩

/-- C3: at startup a job with a persisted record resumes from that
record — its next-run time, last-run time, last status and failure count
all come from the store, not from a reset of the configured definition —
and the merged entry is what the Orchestrator schedules. -/
theorem c3_restart_uses_persisted_state (c : Config)
    (d : JobDefinition) (s : JobRunState)
    (hf : c.store.find? (fun r => r.jobId == d.id) = some s) :
    (loadState c.store c.startTime d).nextRunAt = s.nextRunAt ∧
    (loadState c.store c.startTime d).lastRunAt = s.lastRunAt ∧
    (loadState c.store c.startTime d).lastStatus = s.lastStatus ∧
    (loadState c.store c.startTime d).consecutiveFailures
        = s.consecutiveFailures ∧
    (d ∈ c.defs →
      (⟨d, loadState c.store c.startTime d⟩ : Entry)
        ∈ c.startup.entries) := by
  refine ⟨?_, ?_, ?_, ?_, ?_⟩
  · simp [loadState, hf]
  · simp [loadState, hf]
  · simp [loadState, hf]
  · simp [loadState, hf]
  · intro hd
    simp only [Config.startup]
    exact List.mem_map_of_mem _ hd

/-- Witness for C3 at the sample configuration: the persisted record for
the video job is found and its schedule fields survive the restart. -/
theorem c3_restart_uses_persisted_state_witness :
    (loadState sampleConfig.store sampleConfig.startTime
        sampleDef).nextRunAt = sampleStored.nextRunAt ∧
    (⟨sampleDef, loadState sampleConfig.store sampleConfig.startTime
        sampleDef⟩ : Entry) ∈ sampleConfig.startup.entries :=
  ⟨(c3_restart_uses_persisted_state sampleConfig sampleDef sampleStored
      (by decide)).1,
   (c3_restart_uses_persisted_state sampleConfig sampleDef sampleStored
      (by decide)).2.2.2.2 (by decide)⟩

/-- C5: a pool at capacity answers `submit` with `Busy` at once and is
left unchanged; the due job that received `Busy` passes through the tick
untouched — its `nextRunAt` in particular — claiming no pool slot and no
in-flight id, and it is still due at every later tick. -/
theorem c5_busy_pool_skips (now : Nat) (e : Entry) (ps : Pools)
    (fl : List String) (es : List Entry)
    (hdue : isDue now e = true)
    (hfull : (ps.category e.d.poolCategory).capacity ≤
      (ps.category e.d.poolCategory).inFlight) :
    (ps.category e.d.poolCategory).submit
        = (.busy, ps.category e.d.poolCategory) ∧
    tickList now ps fl (e :: es) =
      ((tickList now ps fl es).1, (tickList now ps fl es).2.1,
        e :: (tickList now ps fl es).2.2) ∧
    ∀ now2, now ≤ now2 → isDue now2 e = true := by
  have hnl : ¬ (ps.category e.d.poolCategory).inFlight <
      (ps.category e.d.poolCategory).capacity := Nat.not_lt.mpr hfull
  refine ⟨submit_busy hnl, tickList_cons_busy ps fl es hdue hnl, ?_⟩
  intro now2 h2
  simp only [isDue, Bool.and_eq_true, decide_eq_true_eq] at hdue ⊢
  exact ⟨⟨Nat.le_trans hdue.1.1 h2, hdue.1.2⟩, hdue.2⟩

/-- Witness for C5 at a concrete saturated pool: the CPU pool (5 of 5
slots busy) turns the due video job away unchanged, and the job is still
due at time 9999. -/
theorem c5_busy_pool_skips_witness :
    (busyPools.category dueEntry.d.poolCategory).submit
        = (.busy, busyPools.category dueEntry.d.poolCategory) ∧
    tickList 10 busyPools [] [dueEntry] =
      ((tickList 10 busyPools [] []).1,
        (tickList 10 busyPools [] []).2.1,
        dueEntry :: (tickList 10 busyPools [] []).2.2) ∧
    isDue 9999 dueEntry = true :=
  ⟨(c5_busy_pool_skips 10 dueEntry busyPools [] [] (by decide)
      (by decide)).1,
   (c5_busy_pool_skips 10 dueEntry busyPools [] [] (by decide)
      (by decide)).2.1,
   (c5_busy_pool_skips 10 dueEntry busyPools [] [] (by decide)
      (by decide)).2.2 9999 (by decide)⟩

/-- C6: a failed run — a fault or `success = false` — is recorded as
`Failed` and increments `consecutiveFailures` by exactly one; a
successful run records `Success` and resets the counter to zero; and a
completion never touches any job definition, so every job's `enabled`
flag is untouched. -/
theorem c6_failure_accounting :
    (∀ (t : Nat) (d : JobDefinition) (s : JobRunState),
      (completeJob t d false s).lastStatus = .failed ∧
      (completeJob t d false s).consecutiveFailures
          = s.consecutiveFailures + 1) ∧
    (∀ (t : Nat) (d : JobDefinition) (s : JobRunState),
      (completeJob t d true s).lastStatus = .succeeded ∧
      (completeJob t d true s).consecutiveFailures = 0) ∧
    (∀ f : Fault, recordOutcome (.error f) = false) ∧
    (∀ r : PipelineResult, recordOutcome (.ok r) = r.success) ∧
    (∀ (j : String) (t : Nat) (ok : Bool) (st : SysState),
      (complete j t ok st).entries.map Entry.d
        = st.entries.map Entry.d) := by
  refine ⟨fun t d s => ⟨rfl, rfl⟩, fun t d s => ⟨rfl, rfl⟩,
    fun f => rfl, fun r => rfl, ?_⟩
  intro j t ok st
  unfold complete
  cases hf : st.entries.find? (isRunningId j) with
  | none => rfl
  | some e0 =>
    dsimp only
    apply entriesD_map_eq
    intro e
    by_cases hr : isRunningId j e
    · rw [if_pos hr]
    · rw [if_neg (by simp [hr])]

/-- C7: a fault in one job's execution is contained in that job's state:
recording it equals recording an ordinary failed run, every entry of a
different job id survives completely unchanged, and the in-flight count
of every other id is untouched, so no other job's scheduling is
affected and the loop's next tick proceeds from a well-formed state. -/
theorem c7_fault_containment (j : String) (t : Nat) (f : Fault)
    (st : SysState) :
    (∀ e ∈ st.entries, e.d.id ≠ j →
      e ∈ (complete j t (recordOutcome (.error f)) st).entries) ∧
    (∀ j2, j2 ≠ j →
      (complete j t (recordOutcome (.error f)) st).inFlight.count j2
        = st.inFlight.count j2) ∧
    complete j t (recordOutcome (.error f)) st = complete j t false st := by
  refine ⟨?_, ?_, rfl⟩
  · intro e hm hne
    unfold complete
    cases hf2 : st.entries.find? (isRunningId j) with
    | none => exact hm
    | some e0 =>
      dsimp only
      have hno : isRunningId j e = false := by
        simp only [isRunningId, Bool.and_eq_false_iff]
        left
        simp only [beq_eq_false_iff_ne, ne_eq]
        exact hne
      refine List.mem_map.mpr ⟨e, hm, ?_⟩
      rw [if_neg (by simp [hno])]
  · intro j2 hne
    unfold complete
    cases hf2 : st.entries.find? (isRunningId j) with
    | none => rfl
    | some e0 =>
      dsimp only
      exact List.count_erase_of_ne hne st.inFlight

/-- Witness for C7 at a concrete two-job state: after the running video
job's pipeline faults, the SEO job's entry and in-flight count are
exactly as before. -/
theorem c7_fault_containment_witness :
    idleEntryB ∈ (complete "viral_video_gen" 99
      (recordOutcome (.error sampleFault)) twoJobState).entries ∧
    (complete "viral_video_gen" 99 (recordOutcome (.error sampleFault))
        twoJobState).inFlight.count "seo_regen"
      = twoJobState.inFlight.count "seo_regen" :=
  ⟨(c7_fault_containment "viral_video_gen" 99 sampleFault
      twoJobState).1 idleEntryB (by decide) (by decide),
   (c7_fault_containment "viral_video_gen" 99 sampleFault
      twoJobState).2.1 "seo_regen" (by decide)⟩

end SpecModel


namespace Source

/-- C4 (code bug): the job that becomes due is not dispatched to the pool
matching its resource category.  Both `add_job` calls omit the `executor`
argument, so the CPU-bound video-rendering job `viral_video_gen` runs on
the `"default"` executor — the 20-thread pool the code's own comment
reserves for I/O-bound tasks — and both jobs share that one pool, while
the `"processpool"` executor declared "For CPU bound tasks (Video
Rendering)" is named by no job at all. -/
theorem c4_video_job_runs_on_default_executor :
    scheduledJobs.map effectiveExecutor = ["default", "default"] ∧
    (∃ x ∈ executors, x.name = "processpool") ∧
    ∀ j ∈ scheduledJobs, effectiveExecutor j ≠ "processpool" := by
  refine ⟨rfl, ⟨⟨"processpool", 5⟩, by decide, rfl⟩, ?_⟩
  decide

/-- C8: `harvest_long_tail` returns exactly 63 keywords — the 21
base-keyword/modifier combinations followed by their 42 "today"/"working"
variants — and `build_pages` writes exactly 63 HTML files, one distinct
file per keyword. -/
theorem c8_harvest_and_build_counts :
    harvest_long_tail = expandedKeywords ++ deepTailKeywords ∧
    expandedKeywords.length = 21 ∧
    deepTailKeywords.length = 42 ∧
    harvest_long_tail.length = 63 ∧
    build_pages_paths.length = 63 ∧
    build_pages_paths.Nodup := by
  refine ⟨rfl, rfl, rfl, rfl, rfl, ?_⟩
  decide

/-- C9: `generate_script` never propagates an exception — every call
returns a string, and whenever the body of the `try` block fails the
result is the fixed fallback string.  Each call either returns that
fallback or the value the body produced. -/
theorem c9_generate_script_never_raises (o : PostOutcome) :
    ((generate_script_body o).isOk = false →
      generate_script o = fallback_script) ∧
    (generate_script o = fallback_script ∨
      generate_script_body o = .ok (generate_script o)) := by
  constructor
  · intro h
    unfold generate_script
    cases hb : generate_script_body o with
    | ok t => rw [hb] at h; simp [Except.isOk, Except.toBool] at h
    | error e => rfl
  · cases hb : generate_script_body o with
    | ok t =>
      right
      have hg : generate_script o = t := by
        unfold generate_script
        rw [hb]
      rw [hg]
    | error e =>
      left
      unfold generate_script
      rw [hb]

/-- C10: whenever `fetch_footage` returns a file path, `process_video`
removes that temporary footage file before returning, on both the success
path and the exception path of the editing block. -/
theorem c10_temp_footage_removed (files : Finset String)
    (fo : FetchOutcome) (outFile : String) (eo : EditOutcome) (p : String)
    (h : (fetch_footage files fo).2 = some p) :
    p ∉ process_video files fo outFile eo := by
  cases fo with
  | raised => simp [fetch_footage] at h
  | httpNotOk => simp [fetch_footage] at h
  | noVideos => simp [fetch_footage] at h
  | got q =>
    simp [fetch_footage] at h
    subst h
    cases eo with
    | rendered =>
      simp [process_video, fetch_footage, process_video_after_fetch]
    | raised =>
      simp [process_video, fetch_footage, process_video_after_fetch]

/-- Witness for C10 at a concrete run: the downloaded temp clip is gone
after `process_video`, on the success path, starting from an empty
disk. -/
theorem c10_temp_footage_removed_witness :
    "resources/temp_video_1.mp4" ∉
      process_video ∅ (.got "resources/temp_video_1.mp4")
        "output/shorts/stake_short_1.mp4" .rendered :=
  c10_temp_footage_removed ∅ (.got "resources/temp_video_1.mp4")
    "output/shorts/stake_short_1.mp4" .rendered
    "resources/temp_video_1.mp4" rfl

end Source

end WenBot
